import Mathlib

/-!
Verification of the casual-mcp tool-augmented chat orchestrator.

This file gives a shallow embedding, in Lean, of the core components of the
casual-mcp repository and proves properties of them:

* `ToolCache` (src/casual_mcp/tool_cache.py): TTL-bounded memoisation of the
  tool catalogue with a monotonic version counter;
* the partitioner (src/casual_mcp/tool_discovery.py) splitting a catalogue
  into loaded and deferred tools;
* the BM25-backed `ToolSearchIndex` (src/casual_mcp/tool_search_index.py);
* the synthetic `SearchToolsTool` (src/casual_mcp/search_tools_tool.py);
* the chat loop of `McpToolChat` (src/casual_mcp/mcp_tool_chat.py): per-call
  statistics, tool-call dispatch and the iteration limit.

Python dictionaries are embedded as insertion-ordered association lists,
Python sets of strings as duplicate-free string lists, the monotonic clock
and TTL floats as rationals, and the external collaborators (MCP transport,
LLM adapter, the rank_bm25 scoring function) as explicit parameters.
-/

namespace CasualMcp

/-- An MCP tool as used by the cache, the partitioner, the search index and
the chat loop (mcp.Tool). Only the fields the verified components inspect
are carried: `name` and `description`; the JSON input schema plays no role
in any of the verified properties. -/
structure Tool where
  name : String
  description : Option String
  deriving Repr, DecidableEq

/-! ## Association-list helpers (embedding of Python dict) -/

/-- Lookup in an insertion-ordered association list (Python `d.get(k)`). -/
def alistGet {β : Type} (m : List (String × β)) (k : String) : Option β :=
  match m with
  | [] => none
  | (k2, v) :: rest => if k2 = k then some v else alistGet rest k

/-- Python `d.get(k, 0)` over a `dict[str, int]`. -/
def alistGetNat (m : List (String × Nat)) (k : String) : Nat :=
  (alistGet m k).getD 0

/-- Python `d[k] = d.get(k, 0) + 1` on an insertion-ordered dict. -/
def alistIncr (m : List (String × Nat)) (k : String) : List (String × Nat) :=
  match m with
  | [] => [(k, 1)]
  | (k2, v) :: rest =>
      if k2 = k then (k2, v + 1) :: rest else (k2, v) :: alistIncr rest k

/-- Sum of the values of a `dict[str, int]` (Python `sum(d.values())`). -/
def sumValues (m : List (String × Nat)) : Nat :=
  (m.map (fun p => p.2)).sum

/-- Python `d.setdefault(k, []).append(v)` on a `dict[str, list]`. -/
def alistAppend {β : Type} (m : List (String × List β)) (k : String) (v : β) :
    List (String × List β) :=
  match m with
  | [] => [(k, [v])]
  | (k2, vs) :: rest =>
      if k2 = k then (k2, vs ++ [v]) :: rest else (k2, vs) :: alistAppend rest k v

/-- Concatenation of all the value lists of a `dict[str, list]`. -/
def flattenValues {β : Type} (m : List (String × List β)) : List β :=
  (m.map (fun p => p.2)).flatten


/-! ## Tool Cache (src/casual_mcp/tool_cache.py)

The monotonic clock (`time.monotonic()`) is embedded as a rational number
supplied at each operation; the MCP transport call `self._client.list_tools()`
is embedded as an `Option (List Tool)` argument (`none` = the transport
raised, `some tools` = it returned `tools`). -/

/-- Raw value of the MCP_TOOL_CACHE_TTL environment variable, as seen by
`_parse_ttl`: absent, present but not parseable as a float, or a number. -/
inductive EnvTtl where
  | unset
  | invalid
  | value (x : ℚ)

/-- Embeds `_parse_ttl` (tool_cache.py lines 15-35): absent or unparseable
values fall back to the 30 s default; non-positive values yield `none`,
meaning no expiry. -/
def parseTtl : EnvTtl → Option ℚ
  | .unset => some 30
  | .invalid => some 30
  | .value x => if x ≤ 0 then none else some x

/-- Embeds the TTL resolution in `ToolCache.__init__` (line 55-57):
`ttl_seconds if ttl_seconds is not None else _parse_ttl(os.getenv(...))`.
A non-`none` constructor argument is used as-is, without the non-positive
normalisation that `_parse_ttl` applies to the environment value. -/
def initTtl (ttlSeconds : Option ℚ) (env : EnvTtl) : Option ℚ :=
  match ttlSeconds with
  | some t => some t
  | none => parseTtl env

/-- State of a `ToolCache`: `cached` embeds `_state` (the tool list together
with its `fetched_at` monotonic timestamp), `version` embeds `_version` and
`ttl` embeds `_ttl` (`none` = never expires). -/
structure ToolCacheState where
  cached : Option (List Tool × ℚ)
  version : Nat
  ttl : Option ℚ
  deriving DecidableEq

/-- Embeds `ToolCache._is_expired` (lines 62-69). -/
def isExpired (s : ToolCacheState) (now : ℚ) : Bool :=
  match s.cached with
  | none => true
  | some (_, fetchedAt) =>
      match s.ttl with
      | none => false
      | some ttl => decide (now - fetchedAt > ttl)

/-- Outcome of one `get_tools` call: the returned (or raised) value, the
post-call cache state, and whether `list_tools` was invoked on the transport. -/
structure GetToolsOutcome where
  result : Except Unit (List Tool)
  state : ToolCacheState
  fetched : Bool

/-- Embeds `ToolCache.get_tools` (lines 71-92). The fast path returns the
cached list when not forced, not expired and a state is stored; otherwise the
transport is consulted (the double-checked condition inside the lock is the
same condition re-evaluated with unchanged state, so it collapses in this
sequential embedding). A transport error propagates with no state committed. -/
def getTools (s : ToolCacheState) (forceRefresh : Bool) (now : ℚ)
    (transport : Option (List Tool)) : GetToolsOutcome :=
  if forceRefresh = false ∧ isExpired s now = false ∧ s.cached.isSome = true then
    ⟨.ok ((s.cached.map (fun p => p.1)).getD []), s, false⟩
  else
    match transport with
    | none => ⟨.error (), s, true⟩
    | some tools =>
        ⟨.ok tools, { cached := some (tools, now), version := s.version + 1, ttl := s.ttl },
          true⟩

/-- Embeds `ToolCache.invalidate` (lines 94-98): discard the stored state. -/
def invalidate (s : ToolCacheState) : ToolCacheState :=
  { s with cached := none }

/-- Embeds `ToolCache.prime` (lines 100-108): seed the cache and bump the
version. -/
def prime (s : ToolCacheState) (tools : List Tool) (now : ℚ) : ToolCacheState :=
  { cached := some (tools, now), version := s.version + 1, ttl := s.ttl }

/-- One cache operation, for stating properties over arbitrary histories. -/
inductive CacheOp where
  | getTools (forceRefresh : Bool) (now : ℚ) (transport : Option (List Tool))
  | invalidate
  | prime (tools : List Tool) (now : ℚ)

/-- State transition of a single cache operation. -/
def applyCacheOp (s : ToolCacheState) : CacheOp → ToolCacheState
  | .getTools f now tr => (getTools s f now tr).state
  | .invalidate => invalidate s
  | .prime tools now => prime s tools now

/-! ## Toolset filter helpers (src/casual_mcp/tool_filter.py)

Only `extract_server_and_tool` is needed by the verified claims; the Python
`set[str]` of server names is embedded as a duplicate-free `List String`. -/

/-- Python `tool_name.split("_", 1)`: `none` when the name has no underscore,
otherwise the parts before and after the first underscore. -/
def splitOnFirstUnderscore : List Char → Option (List Char × List Char)
  | [] => none
  | c :: cs =>
      if c = '_' then some ([], cs)
      else
        match splitOnFirstUnderscore cs with
        | none => none
        | some (a, b) => some (c :: a, b)

/-- Embeds `extract_server_and_tool` (tool_filter.py lines 22-45): split at
the first underscore when the prefix is a known server; otherwise attribute
to the single configured server, or to `"default"`. -/
def extract_server_and_tool (toolName : String) (serverNames : List String) :
    String × String :=
  let fallback : String × String :=
    match serverNames with
    | [s] => (s, toolName)
    | _ => ("default", toolName)
  match splitOnFirstUnderscore toolName.data with
  | some (a, b) =>
      if serverNames.contains (String.mk a) then (String.mk a, String.mk b)
      else fallback
  | none => fallback

/-! ## Partitioner (src/casual_mcp/tool_discovery.py) -/

/-- Embeds the `defer_loading` flag shared by both `McpServerConfig`
variants (models/mcp_server_config.py); the transport-specific fields play
no role in partitioning. -/
structure McpServerConfig where
  defer_loading : Bool
  deriving Repr, DecidableEq

/-- Embeds `ToolDiscoveryConfig` (models/tool_discovery_config.py). -/
structure ToolDiscoveryConfig where
  enabled : Bool
  defer_all : Bool
  max_search_results : Nat
  deriving Repr, DecidableEq

/-- Embeds the slice of `Config` (models/config.py) that the partitioner
reads: the server map and the optional tool-discovery settings. -/
structure Config where
  servers : List (String × McpServerConfig)
  tool_discovery : Option ToolDiscoveryConfig
  deriving Repr, DecidableEq

/-- Embeds `_should_defer_tool` (tool_discovery.py lines 76-99): defer
everything under `defer_all`, load tools of unknown servers, otherwise
follow the owning server's `defer_loading` flag. -/
def should_defer_tool (serverName : String)
    (serverConfigs : List (String × McpServerConfig))
    (discovery : ToolDiscoveryConfig) : Bool :=
  if discovery.defer_all then true
  else
    match alistGet serverConfigs serverName with
    | none => false
    | some cfg => cfg.defer_loading

/-- Owning server of a tool name, as the partitioner and the stats
attribution compute it. -/
def serverOf (toolName : String) (serverNames : List String) : String :=
  (extract_server_and_tool toolName serverNames).1

/-- Loop body of `partition_tools` (tool_discovery.py lines 55-62): append
the tool to the loaded list or to its server's deferred bucket. -/
def partitionStep (config : Config) (serverNames : List String)
    (discovery : ToolDiscoveryConfig)
    (acc : List Tool × List (String × List Tool)) (tool : Tool) :
    List Tool × List (String × List Tool) :=
  let serverName := serverOf tool.name serverNames
  if should_defer_tool serverName config.servers discovery then
    (acc.1, alistAppend acc.2 serverName tool)
  else
    (acc.1 ++ [tool], acc.2)

/-- Embeds `partition_tools` (tool_discovery.py lines 22-73): all tools are
loaded when discovery is absent or disabled, otherwise each tool goes to the
loaded list or to the per-server deferred map. -/
def partition_tools (tools : List Tool) (config : Config)
    (serverNames : List String) : List Tool × List (String × List Tool) :=
  match config.tool_discovery with
  | none => (tools, [])
  | some discovery =>
      if discovery.enabled = false then (tools, [])
      else tools.foldl (partitionStep config serverNames discovery) ([], [])

/-- Invariant of the deferred map built by `partition_tools`: every bucket
entry holds tools owned by the bucket server whose server the configuration
defers. -/
def DeferredOk (config : Config) (serverNames : List String)
    (discovery : ToolDiscoveryConfig) (m : List (String × List Tool)) : Prop :=
  ∀ p ∈ m, ∀ t ∈ p.2,
    serverOf t.name serverNames = p.1
    ∧ should_defer_tool p.1 config.servers discovery = true

/-- Demo catalogue used by concrete witnesses: one eagerly loaded math tool
and one deferred weather tool. -/
def toolMathAdd : Tool := ⟨"math_add", some "Add two numbers."⟩

/-- Demo deferred tool owned by the weather server. -/
def toolWeatherGet : Tool := ⟨"weather_get", some "Get the weather forecast."⟩

/-- Demo configured server names. -/
def demoServerNames : List String := ["math", "weather"]

/-- Demo discovery settings: enabled, not defer-all. -/
def demoDiscovery : ToolDiscoveryConfig := ⟨true, false, 5⟩

/-- Demo configuration: the weather server defers loading, math does not. -/
def demoConfig : Config :=
  ⟨[("math", ⟨false⟩), ("weather", ⟨true⟩)], some demoDiscovery⟩

/-- Demo catalogue. -/
def demoTools : List Tool := [toolMathAdd, toolWeatherGet]

/-! ## Tool Search Index (src/casual_mcp/tool_search_index.py)

The external `rank_bm25.BM25Okapi` collaborator is embedded as an arbitrary
score function `scores : Nat → ℚ` giving the BM25 score of the i-th indexed
tool for the current query (floats as rationals); the claims proved below
hold for every such function. -/

/-- Separator predicate of the tokeniser: the regex `[\s_]+` splits on runs
of whitespace and underscores. -/
def isSepChar (c : Char) : Bool := c.isWhitespace || c == '_'

/-- Splits a character list into the maximal runs of non-separator
characters (the result of `re.split` with empty parts dropped); `cur` holds
the current run, reversed. -/
def tokenizeAux (p : Char → Bool) : List Char → List Char → List (List Char)
  | [], cur => if cur.isEmpty then [] else [cur.reverse]
  | c :: cs, cur =>
      if p c then
        if cur.isEmpty then tokenizeAux p cs [] else cur.reverse :: tokenizeAux p cs []
      else tokenizeAux p cs (c :: cur)

/-- Embeds `_tokenize` (tool_search_index.py lines 21-28): lowercase, split
on runs of whitespace and underscores, drop empty tokens. -/
def tokenize (s : String) : List String :=
  (tokenizeAux isSepChar (s.data.map Char.toLower) []).map String.mk

/-- Embeds the Python guard `not query.strip()`: true exactly when the
string is empty or all whitespace. -/
def stripIsEmpty (s : String) : Bool := s.data.all Char.isWhitespace

/-- Tokenised document of one tool, as built in `ToolSearchIndex.__init__`
(line 62): `f"{tool.name} {tool.description or ''}"` tokenised. -/
def corpusDoc (t : Tool) : List String :=
  tokenize (t.name ++ " " ++ t.description.getD "")

/-- Embeds `ToolSearchIndex`: the indexed tools and the tool-name → server
map (`_tool_server_map`); `_tools_by_name`, `_tools_by_server` and
`_corpus` are derived from these two fields exactly as `__init__` builds
them. -/
structure ToolSearchIndex where
  tools : List Tool
  tool_server_map : List (String × String)

/-- Server of an indexed tool: `self._tool_server_map.get(name, "unknown")`. -/
def ToolSearchIndex.serverName (idx : ToolSearchIndex) (toolName : String) : String :=
  (alistGet idx.tool_server_map toolName).getD "unknown"

/-- Raw token-overlap score of the fallback path (line 113):
`len(set(tokenized_query) & set(self._corpus[i]))`. -/
def overlapScore (queryTokens docTokens : List String) : Nat :=
  ((queryTokens.dedup).filter (fun tok => decide (tok ∈ docTokens))).length

/-- Fallback scoring (lines 110-115): positive token-overlap counts for
every indexed tool, in index order. -/
def fallbackScored (idx : ToolSearchIndex) (queryTokens : List String) :
    List (ℚ × Tool) :=
  idx.tools.filterMap (fun t =>
    let ov := overlapScore queryTokens (corpusDoc t)
    if 0 < ov then some ((ov : ℚ), t) else none)

/-- Result collection loop of `search` (lines 121-128): walk the sorted
scored list, skip tools of other servers when a filter is given, and stop
once the accumulated results reach `max_results`. -/
def collectResults (m : List (String × String)) (serverFilter : Option String)
    (maxResults : Nat) : List (ℚ × Tool) → List (String × Tool) → List (String × Tool)
  | [], acc => acc
  | (_, tool) :: rest, acc =>
      let sname := (alistGet m tool.name).getD "unknown"
      if (match serverFilter with
          | some f => decide (sname ≠ f)
          | none => false) then
        collectResults m serverFilter maxResults rest acc
      else
        let acc2 := acc ++ [(sname, tool)]
        if maxResults ≤ acc2.length then acc2
        else collectResults m serverFilter maxResults rest acc2

/-- Embeds `ToolSearchIndex.search` (lines 76-130): empty index or blank
query give no results; otherwise keep tools with positive BM25 score,
falling back to raw token overlap when none is positive, sort by score
descending (stable), then filter by server and cap at `max_results`. -/
def ToolSearchIndex.search (idx : ToolSearchIndex) (scores : Nat → ℚ)
    (query : String) (maxResults : Nat) (serverFilter : Option String) :
    List (String × Tool) :=
  if idx.tools.isEmpty || stripIsEmpty query then []
  else
    let tokenizedQuery := tokenize query
    let scored := idx.tools.enum.filterMap
      (fun p => if 0 < scores p.1 then some (scores p.1, p.2) else none)
    let scored2 := if scored.isEmpty then fallbackScored idx tokenizedQuery else scored
    let sorted := scored2.mergeSort (fun a b => decide (b.1 ≤ a.1))
    collectResults idx.tool_server_map serverFilter maxResults sorted []

/-- Embeds `ToolSearchIndex.get_by_server` (lines 132-142): the insertion-
order bucket of one server, paired with the server name. -/
def ToolSearchIndex.get_by_server (idx : ToolSearchIndex) (server : String) :
    List (String × Tool) :=
  (idx.tools.filter (fun t => idx.serverName t.name == server)).map
    (fun t => (server, t))

/-- Lookup in `_tools_by_name`; the dict comprehension keeps the last
binding for a duplicated name. -/
def ToolSearchIndex.byName (idx : ToolSearchIndex) (n : String) : Option Tool :=
  idx.tools.reverse.find? (fun t => t.name == n)

/-- Embeds `ToolSearchIndex.get_by_names` (lines 144-169): exact lookup,
returning found `(server, tool)` pairs and the names that did not match,
both in input order (duplicated input names give duplicated entries). -/
def ToolSearchIndex.get_by_names (idx : ToolSearchIndex)
    (toolNames : List String) : List (String × Tool) × List String :=
  toolNames.foldl (fun acc n =>
    match idx.byName n with
    | some t => (acc.1 ++ [(idx.serverName n, t)], acc.2)
    | none => (acc.1, acc.2 ++ [n])) ([], [])

/-! ## Search-Tools Tool (src/casual_mcp/search_tools_tool.py) -/

/-- The ASCII apostrophe, used inside the literal message strings. -/
def apos : String := "\x27"

/-- Leading part of the `SearchToolsTool.definition` description f-string
(lines 205-213), before the interpolated manifest. -/
def searchToolsDescPre : String :=
  "Search for and load additional tools that are available but not yet loaded.\nUse this tool to discover tools you need to complete a task.\n\nAvailable tool servers:\n"

/-- Trailing part of the `SearchToolsTool.definition` description f-string,
after the interpolated manifest. -/
def searchToolsDescSuf : String :=
  "\n\nProvide at least one of: query, server_name, or tool_names."

/-- Embeds the description built by `SearchToolsTool.definition` (lines
205-213): the deferred-set manifest is interpolated into the middle of the
tool description string. -/
def searchToolsDescription (manifest : String) : String :=
  searchToolsDescPre ++ manifest ++ searchToolsDescSuf

/-- The members defined by `class SearchToolsTool` (search_tools_tool.py
lines 144-366): the `_TOOL_NAME` class attribute, the constructor, and the
`name`, `definition` and `execute` members — the class inherits from
nothing, so these are all its attributes. -/
def searchToolsClassMembers : List String :=
  ["_TOOL_NAME", "__init__", "name", "definition", "execute"]

/-- Per-instance state of a `SearchToolsTool`: the valid (deferred) server
names, the search index over the deferred tools, the deferred and loaded
name sets, and `_config.max_search_results`. -/
structure SearchToolsState where
  server_names : List String
  search_index : ToolSearchIndex
  deferred_tools : List String
  loaded_tools : List String
  max_search_results : Nat

/-- Arguments of one `execute` call, as extracted from the args dict
(lines 259-261): each parameter is absent (`none`) or present. -/
structure ExecArgs where
  query : Option String
  server_name : Option String
  tool_names : Option (List String)

/-- Content of a `SyntheticToolResult` from `execute`, abstracted from its
string formatting: the two error messages, the no-results message with the
parameters it echoes, and the found block (all results, the already-loaded
names, and the names reported as not found). -/
inductive SearchContent where
  | errorNoParams
  | errorUnknownServer (server : String) (valid : List String)
  | noToolsFound (query : Option String) (server : Option String) (notFound : List String)
  | found (results : List (String × Tool)) (alreadyLoaded : List String) (notFound : List String)
  deriving Repr, DecidableEq

/-- Embeds `SyntheticToolResult` for search-tools. -/
structure SearchToolsResult where
  content : SearchContent
  newly_loaded_tools : List Tool
  deriving Repr, DecidableEq

/-- Normalisation of `query` (lines 263-265): a whitespace-only string
becomes not provided (`if query is not None and not query.strip()`). -/
def normQuery : Option String → Option String
  | none => none
  | some s => if stripIsEmpty s then none else some s

/-- Normalisation of `tool_names` (lines 266-267): an empty list becomes
not provided. There is no corresponding normalisation for `server_name`. -/
def normToolNames : Option (List String) → Option (List String)
  | none => none
  | some l => if l.length = 0 then none else some l

/-- Python `set.add` on a string set embedded as a duplicate-free list. -/
def setAdd (s : List String) (x : String) : List String :=
  if x ∈ s then s else s ++ [x]

/-- Python `set.discard` on a string set embedded as a duplicate-free list. -/
def setDiscard (s : List String) (x : String) : List String :=
  s.filter (fun y => y ≠ x)

/-- The newly-loaded / already-loaded partition loop of `execute` (lines
331-343): each result tool already in the loaded set is reported as already
loaded, otherwise it moves from the deferred set to the loaded set and is
emitted as newly loaded. -/
def loadResults (st : SearchToolsState) (results : List (String × Tool)) :
    List Tool × List String × SearchToolsState :=
  results.foldl (fun acc p =>
    if p.2.name ∈ acc.2.2.loaded_tools then
      (acc.1, acc.2.1 ++ [p.2.name], acc.2.2)
    else
      (acc.1 ++ [p.2], acc.2.1,
        { acc.2.2 with
            deferred_tools := setDiscard acc.2.2.deferred_tools p.2.name,
            loaded_tools := setAdd acc.2.2.loaded_tools p.2.name }))
    ([], [], st)

/-- The parameter-combination resolution of `execute` (lines 284-317):
exact lookup when `tool_names` is given (filtered to `server_name` when
both are present), scoped or global BM25 search with a `query`, the whole
server with `server_name` alone. The first component is `results`, the
second the names reported as not found. The `none, none` case is
unreachable (excluded by the no-parameters guard; the source asserts
`query is not None` there). -/
def resolveResults (st : SearchToolsState) (scores : Nat → ℚ)
    (query : Option String) (server_name : Option String)
    (tool_names : Option (List String)) : List (String × Tool) × List String :=
  match tool_names with
  | some ns =>
      let fnf := st.search_index.get_by_names ns
      let found :=
        match server_name with
        | some s => fnf.1.filter (fun p => p.1 == s)
        | none => fnf.1
      (found, fnf.2)
  | none =>
      match server_name, query with
      | some s, some q =>
          (st.search_index.search scores q st.max_search_results (some s), [])
      | some s, none => (st.search_index.get_by_server s, [])
      | none, some q =>
          (st.search_index.search scores q st.max_search_results none, [])
      | none, none => ([], [])

/-- The guard `server_name is not None and server_name not in
self._server_names` (line 277). -/
def unknownServer (st : SearchToolsState) : Option String → Bool
  | some s => decide (s ∉ st.server_names)
  | none => false

/-- The tail of `execute` once both error guards have passed (lines
319-366): the no-results message, or the found block with the newly-loaded
tools moved from the deferred set to the loaded set. -/
def executeResolved (st : SearchToolsState) (scores : Nat → ℚ)
    (query : Option String) (server_name : Option String)
    (tool_names : Option (List String)) : SearchToolsResult × SearchToolsState :=
  if (resolveResults st scores query server_name tool_names).1.isEmpty then
    (⟨.noToolsFound query server_name
        (resolveResults st scores query server_name tool_names).2, []⟩, st)
  else
    (⟨.found (resolveResults st scores query server_name tool_names).1
        (loadResults st (resolveResults st scores query server_name tool_names).1).2.1
        (resolveResults st scores query server_name tool_names).2,
      (loadResults st (resolveResults st scores query server_name tool_names).1).1⟩,
     (loadResults st (resolveResults st scores query server_name tool_names).1).2.2)

/-- Body of `execute` after normalisation (lines 269-366), over the
normalised `query` and `tool_names` and the raw `server_name`: the
no-parameters guard, the unknown-server guard, then the resolution tail. -/
def executeCore (st : SearchToolsState) (scores : Nat → ℚ)
    (query : Option String) (server_name : Option String)
    (tool_names : Option (List String)) : SearchToolsResult × SearchToolsState :=
  if query = none ∧ server_name = none ∧ tool_names = none then
    (⟨.errorNoParams, []⟩, st)
  else if unknownServer st server_name = true then
    (⟨.errorUnknownServer (server_name.getD "") st.server_names, []⟩, st)
  else executeResolved st scores query server_name tool_names

/-- Embeds `SearchToolsTool.execute` (lines 243-366): normalise the
parameters, then run the guarded resolution body. -/
def SearchToolsTool.execute (st : SearchToolsState) (scores : Nat → ℚ)
    (args : ExecArgs) : SearchToolsResult × SearchToolsState :=
  executeCore st scores (normQuery args.query) args.server_name
    (normToolNames args.tool_names)

/-- True for the two error contents of `execute`. -/
def isErrorContent : SearchContent → Bool
  | .errorNoParams => true
  | .errorUnknownServer _ _ => true
  | _ => false

/-- The error condition of the claim as literally stated (a definition
following the claim wording, for comparison against the code): all three
parameters are normalised — empty strings and empty lists become not
provided, including an empty `server_name` — and an error is expected iff
none is provided afterwards, or `server_name` is provided but unknown. -/
def claimSaysError (st : SearchToolsState) (args : ExecArgs) : Bool :=
  let q := normQuery args.query
  let sn :=
    match args.server_name with
    | some s => if s = "" then none else some s
    | none => none
  let tn := normToolNames args.tool_names
  (decide (q = none) && decide (sn = none) && decide (tn = none))
    || (match sn with
        | some s => decide (s ∉ st.server_names)
        | none => false)

/-! ## Chat statistics (models/chat_stats.py and the spec)

The `ToolCallStats` and `DiscoveryStats` classes that mcp_tool_chat.py,
models/__init__.py and the discovery tests import are not present under
src (models/chat_stats.py is a stale revision defining `ToolUsageStats`
with the same by_tool/by_server maps and a `total_tool_calls` sum); they
are modelled here from the spec. -/

/-- Embeds `TokenUsageStats` (chat_stats.py lines 6-16). -/
structure TokenUsageStats where
  prompt_tokens : Nat
  completion_tokens : Nat
  deriving Repr, DecidableEq

/-- Computed `total_tokens` field. -/
def TokenUsageStats.total_tokens (s : TokenUsageStats) : Nat :=
  s.prompt_tokens + s.completion_tokens

/-- Modelled from the spec: the missing `ToolCallStats` container,
`tool_calls: { by_tool: map, by_server: map, total }`. -/
structure ToolCallStats where
  by_tool : List (String × Nat)
  by_server : List (String × Nat)
  deriving Repr, DecidableEq

/-- Computed `total` field, as the spec and the stale
`ToolUsageStats.total_tool_calls` compute it: the sum of the by_tool
counters. -/
def ToolCallStats.total (s : ToolCallStats) : Nat := sumValues s.by_tool

/-- Modelled from the spec: the missing `DiscoveryStats`,
`discovery?: { search_calls, tools_discovered }`. -/
structure DiscoveryStats where
  search_calls : Nat
  tools_discovered : Nat
  deriving Repr, DecidableEq

/-- Per-call `ChatStats`; `discovery` is set only when tool discovery is
enabled. -/
structure ChatStats where
  llm_calls : Nat
  tokens : TokenUsageStats
  tool_calls : ToolCallStats
  discovery : Option DiscoveryStats
  deriving Repr, DecidableEq

/-- The fresh stats object allocated at the start of each chat call
(mcp_tool_chat.py line 354). -/
def ChatStats.empty : ChatStats := ⟨0, ⟨0, 0⟩, ⟨[], []⟩, none⟩

/-! ## Chat orchestrator (src/casual_mcp/mcp_tool_chat.py)

The LLM adapter is embedded as a function from the iteration index to the
tool calls of that iteration's assistant response (an empty list means a
final answer, exiting the loop); the MCP transport result and the synthetic
execution result of one dispatch are parameters of `executeToolCall`. -/

/-- One tool call of an assistant message (`AssistantToolCall`): its id,
the function name, and the JSON-encoded arguments string. -/
structure AssistantToolCall where
  id : String
  name : String
  arguments : String
  deriving Repr, DecidableEq

/-- Embeds `ToolResultMessage` as the chat loop builds it. -/
structure ToolResultMessage where
  name : String
  tool_call_id : String
  content : String
  deriving Repr, DecidableEq

/-- Text of the deferred-call error before the interpolated tool name. -/
def deferredErrorMsgPre : String := "Error: Tool " ++ apos

/-- Text of the deferred-call error after the interpolated tool name; it
directs the LLM to the search-tools tool. -/
def deferredErrorMsgSuf : String :=
  apos ++ " is not yet loaded. Use the " ++ apos ++ "search-tools" ++ apos
    ++ " tool to discover and load it first, then call it again."

/-- The in-band error content for a deferred tool called directly
(mcp_tool_chat.py lines 282-286). -/
def deferredErrorMsg (toolName : String) : String :=
  deferredErrorMsgPre ++ toolName ++ deferredErrorMsgSuf

/-- The malformed-arguments error content (`execute`, lines 632-636). -/
def malformedArgsMsg (toolName : String) : String :=
  "Error: Malformed arguments for tool " ++ apos ++ toolName ++ apos ++ "."

/-- The generic execution-failure content (lines 307-311 and 647-653). -/
def execFailedMsg (toolName : String) : String :=
  "Error: Tool " ++ apos ++ toolName ++ apos ++ " failed to execute."

/-- Server attribution of the stats counters (lines 271-275): synthetic
tools bill under the sentinel `"_synthetic"`, every other name under its
extracted server. -/
def attributedServer (toolName : String) (registry serverNames : List String) :
    String :=
  if toolName ∈ registry then "_synthetic" else serverOf toolName serverNames

/-- Embeds the stats update at the top of `_execute_tool_call` (lines
269-275): each dispatched call increments one by_tool counter and one
by_server counter. -/
def recordToolCall (stats : ChatStats) (toolName : String)
    (registry serverNames : List String) : ChatStats :=
  { stats with
      tool_calls :=
        { by_tool := alistIncr stats.tool_calls.by_tool toolName,
          by_server := alistIncr stats.tool_calls.by_server
            (attributedServer toolName registry serverNames) } }

/-- Outcome of dispatching one tool call: the tool-result message, whether
the MCP transport's `call_tool` was reached, and whether the loaded tool
definitions changed (search-tools expansion). -/
structure DispatchOutcome where
  message : ToolResultMessage
  transport_invoked : Bool
  definitions_changed : Bool
  deriving Repr, DecidableEq

/-- Embeds the dispatch branches of `_execute_tool_call` (lines 277-311)
together with `execute` (lines 611-694): a deferred name is rejected
in-band without contacting the transport; a synthetic name is served by the
registry (`synthContent`, `synthNewlyLoaded` stand for the synthetic
execution outcome); otherwise the arguments are JSON-parsed
(`argsParseOk = false` embeds a JSONDecodeError) and only on success is the
transport's `call_tool` reached, its normalised result `mcpContent`. -/
def executeToolCall (tc : AssistantToolCall) (deferred registry : List String)
    (synthContent : String) (synthNewlyLoaded : List Tool)
    (argsParseOk : Bool) (mcpContent : String) : DispatchOutcome :=
  if tc.name ∈ deferred then
    ⟨⟨tc.name, tc.id, deferredErrorMsg tc.name⟩, false, false⟩
  else if tc.name ∈ registry then
    ⟨⟨tc.name, tc.id, synthContent⟩, false, !synthNewlyLoaded.isEmpty⟩
  else if argsParseOk = false then
    ⟨⟨tc.name, tc.id, malformedArgsMsg tc.name⟩, false, false⟩
  else
    ⟨⟨tc.name, tc.id, mcpContent⟩, true, false⟩

/-- The loop-limit error message raised when the iteration cap is exhausted
(lines 476-480). -/
def loopLimitMsg (maxIter : Nat) : String :=
  "Chat loop exceeded maximum " ++ toString maxIter
    ++ " iterations. The LLM may be stuck in a tool-calling loop. Set MCP_MAX_CHAT_ITERATIONS to adjust the limit."

/-- Embeds `DEFAULT_MAX_ITERATIONS = int(os.getenv("MCP_MAX_CHAT_ITERATIONS", "50"))`
(line 40): 50 when the variable is unset, otherwise the parsed integer
(`none` embeds the ValueError of an unparseable value). -/
def defaultMaxIterations (env : Option String) : Option Int :=
  match env with
  | none => some 50
  | some s => s.toInt?

/-- Embeds the iteration of `chat` (lines 389-480) restricted to what the
verified claims observe: each iteration calls the LLM (incrementing
`llm_calls`), breaks when the response carries no tool calls, and otherwise
records the stats of every tool call of the turn before re-entering; an
exhausted range raises the loop-limit error. Token accumulation and message
assembly are orthogonal to the claims and omitted; `i` is the iteration
index and `fuel` the remaining iterations of `range(maxIter)`. -/
def chatLoop (llm : Nat → List AssistantToolCall)
    (registry serverNames : List String) (maxIter : Nat) :
    Nat → Nat → ChatStats → Except String ChatStats
  | _, 0, _ => .error (loopLimitMsg maxIter)
  | i, fuel + 1, stats =>
      let stats1 := { stats with llm_calls := stats.llm_calls + 1 }
      let calls := llm i
      if calls.isEmpty then .ok stats1
      else
        chatLoop llm registry serverNames maxIter (i + 1) fuel
          (calls.foldl
            (fun st tc => recordToolCall st tc.name registry serverNames) stats1)

/-- Embeds the shell of one `chat` call around the loop: fresh stats are
allocated (line 354), and `_last_stats` is assigned only after the loop
breaks (line 485) — the loop-limit raise propagates first, leaving the slot
with its previous value. Returns the call outcome together with the
post-call `_last_stats` slot (read by `get_stats`). -/
def chatCall (llm : Nat → List AssistantToolCall)
    (registry serverNames : List String) (maxIter : Nat)
    (lastStats : Option ChatStats) :
    Except String ChatStats × Option ChatStats :=
  match chatLoop llm registry serverNames maxIter 0 maxIter ChatStats.empty with
  | .ok stats => (.ok stats, some stats)
  | .error e => (.error e, lastStats)

/-- Demo search-tools state over the single deferred weather tool. -/
def demoSearchState : SearchToolsState :=
  ⟨["weather"], ⟨[toolWeatherGet], [("weather_get", "weather")]⟩,
    ["weather_get"], [], 5⟩

/-- Demo LLM script: one turn with a single math_add call, then a final
answer. -/
def demoLlm : Nat → List AssistantToolCall :=
  fun n => if n = 0 then [⟨"call-1", "math_add", "\x7b\x7d"⟩] else []

/-- The stats the demo LLM script produces: two LLM calls, one tool call
billed to math_add on the math server. -/
def demoChatStats : ChatStats :=
  ⟨2, ⟨0, 0⟩, ⟨[("math_add", 1)], [("math", 1)]⟩, none⟩

theorem flattenValues_nil {β : Type} :
    flattenValues ([] : List (String × List β)) = [] := rfl

theorem flattenValues_cons {β : Type} (a : String) (b : List β)
    (r : List (String × List β)) :
    flattenValues ((a, b) :: r) = b ++ flattenValues r := by
  simp [flattenValues]

theorem flattenValues_alistAppend {β : Type} (m : List (String × List β))
    (k : String) (v : β) :
    (flattenValues (alistAppend m k v)).Perm (flattenValues m ++ [v]) := by
  induction m with
  | nil => simp [alistAppend, flattenValues]
  | cons p rest ih =>
      obtain ⟨k2, vs⟩ := p
      by_cases h : k2 = k
      · rw [show alistAppend ((k2, vs) :: rest) k v = (k2, vs ++ [v]) :: rest from by
          simp [alistAppend, h]]
        rw [flattenValues_cons, flattenValues_cons, List.append_assoc, List.append_assoc]
        exact List.Perm.append_left vs List.perm_append_comm
      · rw [show alistAppend ((k2, vs) :: rest) k v = (k2, vs) :: alistAppend rest k v from by
          simp [alistAppend, h]]
        rw [flattenValues_cons, flattenValues_cons, List.append_assoc]
        exact List.Perm.append_left vs ih

/-- The partition fold neither drops nor duplicates tools: loaded plus the
flattened deferred buckets is a permutation of the accumulator contents
followed by the remaining input. -/
theorem partition_fold_perm (config : Config) (serverNames : List String)
    (discovery : ToolDiscoveryConfig) (tools : List Tool)
    (acc : List Tool × List (String × List Tool)) :
    ((tools.foldl (partitionStep config serverNames discovery) acc).1
      ++ flattenValues (tools.foldl (partitionStep config serverNames discovery) acc).2).Perm
      (acc.1 ++ (flattenValues acc.2 ++ tools)) := by
  induction tools generalizing acc with
  | nil => simp
  | cons t rest ih =>
      simp only [List.foldl_cons]
      refine (ih (partitionStep config serverNames discovery acc t)).trans ?_
      by_cases h : should_defer_tool (serverOf t.name serverNames)
          config.servers discovery = true
      · rw [show partitionStep config serverNames discovery acc t
            = (acc.1, alistAppend acc.2 (serverOf t.name serverNames) t) from by
          simp [partitionStep, h]]
        refine List.Perm.append_left acc.1 ?_
        refine (List.Perm.append_right rest
          (flattenValues_alistAppend acc.2 (serverOf t.name serverNames) t)).trans ?_
        rw [List.append_assoc]
        exact List.Perm.refl _
      · rw [show partitionStep config serverNames discovery acc t
            = (acc.1 ++ [t], acc.2) from by simp [partitionStep, h]]
        rw [List.append_assoc]
        refine List.Perm.append_left acc.1 ?_
        rw [show [t] ++ (flattenValues acc.2 ++ rest) = ([t] ++ flattenValues acc.2) ++ rest from by
          rw [List.append_assoc]]
        refine (List.Perm.append_right rest
          (@List.perm_append_comm _ [t] (flattenValues acc.2))).trans ?_
        rw [List.append_assoc]
        exact List.Perm.refl _

/-! ## Theorems -/

theorem sumValues_alistIncr (m : List (String × Nat)) (k : String) :
    sumValues (alistIncr m k) = sumValues m + 1 := by
  induction m with
  | nil => simp [alistIncr, sumValues]
  | cons p rest ih =>
      obtain ⟨k2, v⟩ := p
      by_cases h : k2 = k
      · simp [alistIncr, h, sumValues]
        omega
      · simp [alistIncr, h, sumValues] at ih ⊢
        omega

theorem getTools_version_mono (s : ToolCacheState) (f : Bool) (now : ℚ)
    (tr : Option (List Tool)) : s.version ≤ (getTools s f now tr).state.version := by
  unfold getTools
  split
  · exact le_refl _
  · cases tr with
    | none => exact le_refl _
    | some tools => exact Nat.le_succ _

/-- C8: the ToolCache version counter is strictly monotonic: every successful
refresh performed by `get_tools` and every `prime` increments it by one, no
single operation decreases it, and it is monotone over any history of
operations. -/
theorem toolCache_version_monotonic :
    (∀ (s : ToolCacheState) (op : CacheOp), s.version ≤ (applyCacheOp s op).version)
    ∧ (∀ (s : ToolCacheState) (tools : List Tool) (now : ℚ),
        (prime s tools now).version = s.version + 1)
    ∧ (∀ (s : ToolCacheState) (f : Bool) (now : ℚ) (ts : List Tool),
        (getTools s f now (some ts)).fetched = true →
        (getTools s f now (some ts)).state.version = s.version + 1)
    ∧ (∀ (s : ToolCacheState) (ops : List CacheOp),
        s.version ≤ (ops.foldl applyCacheOp s).version) := by
  refine ⟨?_, ?_, ?_, ?_⟩
  · intro s op
    cases op with
    | getTools f now tr => exact getTools_version_mono s f now tr
    | invalidate => exact le_refl _
    | prime tools now => exact Nat.le_succ _
  · intro s tools now
    rfl
  · intro s f now ts h
    unfold getTools at h ⊢
    by_cases hc : f = false ∧ isExpired s now = false ∧ s.cached.isSome = true
    · rw [if_pos hc] at h
      simp at h
    · rw [if_neg hc]
  · intro s ops
    induction ops generalizing s with
    | nil => exact le_refl _
    | cons op rest ih =>
        calc s.version ≤ (applyCacheOp s op).version := by
              cases op with
              | getTools f now tr => exact getTools_version_mono s f now tr
              | invalidate => exact le_refl _
              | prime tools now => exact Nat.le_succ _
          _ ≤ ((op :: rest).foldl applyCacheOp s).version := by
              simp only [List.foldl_cons]
              exact ih (applyCacheOp s op)

/-- Instantiation of `toolCache_version_monotonic` at a concrete state: the
empty cache refreshes on the first `get_tools` and on a `prime`, bumping the
version from 0 to 1 in each case. -/
theorem toolCache_version_monotonic_witness :
    (getTools ⟨none, 0, some 30⟩ false 0 (some [])).state.version = 0 + 1
    ∧ (prime ⟨none, 0, some 30⟩ [] 0).version = 0 + 1 :=
  ⟨toolCache_version_monotonic.2.2.1 ⟨none, 0, some 30⟩ false 0 [] rfl,
    toolCache_version_monotonic.2.1 ⟨none, 0, some 30⟩ [] 0⟩

/-- C10: `invalidate` discards the stored catalogue but leaves the version
counter unchanged (so a reader polling `version` cannot observe the
invalidation), and the next non-forced `get_tools` always consults the
transport: on success it commits the fetched list and bumps the version, on
transport failure it propagates the error with no state committed. -/
theorem toolCache_invalidate_frame (s : ToolCacheState) (now : ℚ) (ts : List Tool) :
    (invalidate s).version = s.version
    ∧ (invalidate s).cached = none
    ∧ getTools (invalidate s) false now (some ts)
        = ⟨.ok ts, { cached := some (ts, now), version := s.version + 1, ttl := s.ttl }, true⟩
    ∧ getTools (invalidate s) false now none = ⟨.error (), invalidate s, true⟩ := by
  refine ⟨rfl, rfl, ?_, ?_⟩
  · simp [getTools, invalidate, isExpired]
  · simp [getTools, invalidate, isExpired]

/-- C6 counterexample: a zero TTL passed through the constructor argument
`ttl_seconds` is used verbatim (`initTtl (some 0) = some 0`, not `none`), so
a catalogue cached at monotonic time 0 is already expired at time 1 and a
non-forced `get_tools` consults the transport again — contradicting the
claim that a zero or negative TTL supplied via the constructor never
expires. -/
theorem toolCache_constructor_zero_ttl_refetches :
    initTtl (some 0) .unset = some 0
    ∧ (getTools
        { cached := some ([⟨"math_add", none⟩], 0), version := 1,
          ttl := initTtl (some 0) .unset }
        false 1 (some [⟨"math_add", none⟩])).fetched = true := by
  refine ⟨rfl, ?_⟩
  have hexp : isExpired
      { cached := some ([(⟨"math_add", none⟩ : Tool)], 0), version := 1,
        ttl := initTtl (some 0) .unset } 1 = true := by
    simp [isExpired, initTtl]
  simp [getTools, hexp]

/-- C6 (amended): the no-expiry TTL arises from the environment-variable
path: a non-positive MCP_TOOL_CACHE_TTL parses to `none`, and a cache whose
TTL is `none` never expires — a non-forced `get_tools` returns the stored
catalogue without consulting the transport, regardless of elapsed time. -/
theorem toolCache_env_nonpositive_ttl_never_expires (z : ℚ) (hz : z ≤ 0)
    (tools : List Tool) (t0 now : ℚ) (v : Nat) (transport : Option (List Tool)) :
    initTtl none (.value z) = none
    ∧ getTools { cached := some (tools, t0), version := v, ttl := initTtl none (.value z) }
        false now transport
      = ⟨.ok tools, { cached := some (tools, t0), version := v, ttl := none }, false⟩ := by
  have hparse : initTtl none (.value z) = none := by
    simp [initTtl, parseTtl, hz]
  refine ⟨hparse, ?_⟩
  rw [hparse]
  simp [getTools, isExpired]

/-- Instantiation of `toolCache_env_nonpositive_ttl_never_expires` at
MCP_TOOL_CACHE_TTL = 0: a catalogue cached at time 0 is still served from
the cache at time 100 without a fetch. -/
theorem toolCache_env_nonpositive_ttl_never_expires_witness :
    initTtl none (.value 0) = none
    ∧ getTools ⟨some ([⟨"math_add", none⟩], 0), 1, initTtl none (.value 0)⟩ false 100 none
      = ⟨.ok [⟨"math_add", none⟩], ⟨some ([⟨"math_add", none⟩], 0), 1, none⟩, false⟩ :=
  toolCache_env_nonpositive_ttl_never_expires 0 (by decide) [⟨"math_add", none⟩] 0 100 1 none

theorem deferredOk_alistAppend (config : Config) (serverNames : List String)
    (discovery : ToolDiscoveryConfig) (m : List (String × List Tool))
    (k : String) (t : Tool)
    (hm : DeferredOk config serverNames discovery m)
    (hs : serverOf t.name serverNames = k)
    (hd : should_defer_tool k config.servers discovery = true) :
    DeferredOk config serverNames discovery (alistAppend m k t) := by
  induction m with
  | nil =>
      intro p hp t2 ht2
      simp [alistAppend] at hp
      subst hp
      simp at ht2
      subst ht2
      exact ⟨hs, hd⟩
  | cons q rest ih =>
      obtain ⟨k2, vs⟩ := q
      by_cases h : k2 = k
      · rw [show alistAppend ((k2, vs) :: rest) k t = (k2, vs ++ [t]) :: rest from by
          simp [alistAppend, h]]
        intro p hp t2 ht2
        rcases List.mem_cons.mp hp with hp1 | hp2
        · subst hp1
          rcases List.mem_append.mp ht2 with hv | hv
          · exact hm (k2, vs) (List.mem_cons_self _ _) t2 hv
          · simp at hv
            subst hv
            subst h
            exact ⟨hs, hd⟩
        · exact hm p (List.mem_cons_of_mem _ hp2) t2 ht2
      · rw [show alistAppend ((k2, vs) :: rest) k t = (k2, vs) :: alistAppend rest k t from by
          simp [alistAppend, h]]
        intro p hp t2 ht2
        rcases List.mem_cons.mp hp with hp1 | hp2
        · subst hp1
          exact hm (k2, vs) (List.mem_cons_self _ _) t2 ht2
        · exact ih (fun q hq => hm q (List.mem_cons_of_mem _ hq)) p hp2 t2 ht2

/-- The partition fold keeps the loaded/deferred rule invariants: loaded
tools are exactly those the rule does not defer, deferred buckets group
deferred tools under their owning server. -/
theorem partition_fold_inv (config : Config) (serverNames : List String)
    (discovery : ToolDiscoveryConfig) (tools : List Tool)
    (acc : List Tool × List (String × List Tool))
    (hL : ∀ t ∈ acc.1,
      should_defer_tool (serverOf t.name serverNames) config.servers discovery = false)
    (hD : DeferredOk config serverNames discovery acc.2) :
    (∀ t ∈ (tools.foldl (partitionStep config serverNames discovery) acc).1,
      should_defer_tool (serverOf t.name serverNames) config.servers discovery = false)
    ∧ DeferredOk config serverNames discovery
        (tools.foldl (partitionStep config serverNames discovery) acc).2 := by
  induction tools generalizing acc with
  | nil => exact ⟨hL, hD⟩
  | cons t rest ih =>
      simp only [List.foldl_cons]
      by_cases h : should_defer_tool (serverOf t.name serverNames)
          config.servers discovery = true
      · rw [show partitionStep config serverNames discovery acc t
            = (acc.1, alistAppend acc.2 (serverOf t.name serverNames) t) from by
          simp [partitionStep, h]]
        exact ih (acc.1, alistAppend acc.2 (serverOf t.name serverNames) t) hL
          (deferredOk_alistAppend config serverNames discovery acc.2
            (serverOf t.name serverNames) t hD rfl h)
      · rw [show partitionStep config serverNames discovery acc t
            = (acc.1 ++ [t], acc.2) from by
          simp [partitionStep, h]]
        refine ih (acc.1 ++ [t], acc.2) ?_ hD
        intro t2 ht2
        rcases List.mem_append.mp ht2 with hv | hv
        · exact hL t2 hv
        · simp at hv
          subst hv
          simpa using h

/-- The deferral decision of `_should_defer_tool`, spelled out as the rule
of the specification. -/
theorem should_defer_tool_spec (serverName : String)
    (serverConfigs : List (String × McpServerConfig))
    (discovery : ToolDiscoveryConfig) :
    should_defer_tool serverName serverConfigs discovery = true ↔
      (discovery.defer_all = true
        ∨ ∃ cfg, alistGet serverConfigs serverName = some cfg
            ∧ cfg.defer_loading = true) := by
  unfold should_defer_tool
  cases hda : discovery.defer_all with
  | true => simp [hda]
  | false =>
      cases hc : alistGet serverConfigs serverName with
      | none => simp [hda, hc]
      | some cfg => simp [hda, hc]

theorem partition_tools_none (tools : List Tool) (config : Config)
    (serverNames : List String) (hd : config.tool_discovery = none) :
    partition_tools tools config serverNames = (tools, []) := by
  unfold partition_tools
  rw [hd]

theorem partition_tools_some (tools : List Tool) (config : Config)
    (serverNames : List String) (d : ToolDiscoveryConfig)
    (hd : config.tool_discovery = some d) :
    partition_tools tools config serverNames
      = if d.enabled = false then (tools, [])
        else tools.foldl (partitionStep config serverNames d) ([], []) := by
  unfold partition_tools
  rw [hd]

/-- C3: `partition_tools` returns a disjoint partition of exactly the input
tools — loaded plus the flattened deferred map is a permutation of the
catalogue — and it follows the rules: discovery absent or disabled loads
every tool; otherwise a tool is deferred under its owning server exactly
when `defer_all` is set or the owning server's `defer_loading` flag is true,
and a tool whose owning server is unknown (no config entry) is loaded. -/
theorem partition_tools_spec (tools : List Tool) (config : Config)
    (serverNames : List String) :
    ((partition_tools tools config serverNames).1
      ++ flattenValues (partition_tools tools config serverNames).2).Perm tools
    ∧ (config.tool_discovery = none →
        partition_tools tools config serverNames = (tools, []))
    ∧ (∀ d, config.tool_discovery = some d → d.enabled = false →
        partition_tools tools config serverNames = (tools, []))
    ∧ (∀ d, config.tool_discovery = some d → d.enabled = true →
        (∀ t ∈ (partition_tools tools config serverNames).1,
          ¬(d.defer_all = true
            ∨ ∃ cfg, alistGet config.servers (serverOf t.name serverNames) = some cfg
                ∧ cfg.defer_loading = true))
        ∧ (∀ s ts, (s, ts) ∈ (partition_tools tools config serverNames).2 →
            ∀ t ∈ ts, serverOf t.name serverNames = s
              ∧ (d.defer_all = true
                ∨ ∃ cfg, alistGet config.servers s = some cfg
                    ∧ cfg.defer_loading = true))) := by
  refine ⟨?_, ?_, ?_, ?_⟩
  · cases hd : config.tool_discovery with
    | none => simp [partition_tools_none tools config serverNames hd, flattenValues]
    | some discovery =>
        rw [partition_tools_some tools config serverNames discovery hd]
        by_cases he : discovery.enabled = false
        · simp [he, flattenValues]
        · rw [if_neg he]
          have h := partition_fold_perm config serverNames discovery tools ([], [])
          simpa [flattenValues] using h
  · intro h
    exact partition_tools_none tools config serverNames h
  · intro d hd he
    rw [partition_tools_some tools config serverNames d hd, if_pos he]
  · intro d hd he
    have hinv := partition_fold_inv config serverNames d tools ([], [])
      (by intro t ht; simp at ht) (by intro p hp; simp at hp)
    have hpt : partition_tools tools config serverNames
        = tools.foldl (partitionStep config serverNames d) ([], []) := by
      rw [partition_tools_some tools config serverNames d hd, if_neg (by simp [he])]
    constructor
    · intro t ht
      rw [hpt] at ht
      have := hinv.1 t ht
      rw [← should_defer_tool_spec]
      simp [this]
    · intro s ts hmem t ht
      rw [hpt] at hmem
      have := hinv.2 (s, ts) hmem t ht
      exact ⟨this.1, (should_defer_tool_spec s config.servers d).mp this.2⟩

/-- Instantiation of `partition_tools_spec` on the demo catalogue: the
partition computes exactly loaded `[math_add]` and deferred
`weather → [weather_get]`, the round-trip permutation holds, and the
deferred bucket satisfies the deferral rule. -/
theorem partition_tools_spec_witness :
    partition_tools demoTools demoConfig demoServerNames
      = ([toolMathAdd], [("weather", [toolWeatherGet])])
    ∧ ((partition_tools demoTools demoConfig demoServerNames).1
        ++ flattenValues (partition_tools demoTools demoConfig demoServerNames).2).Perm demoTools
    ∧ (serverOf toolWeatherGet.name demoServerNames = "weather"
        ∧ (demoDiscovery.defer_all = true
          ∨ ∃ cfg, alistGet demoConfig.servers "weather" = some cfg
              ∧ cfg.defer_loading = true)) :=
  ⟨by decide,
    (partition_tools_spec demoTools demoConfig demoServerNames).1,
    ((partition_tools_spec demoTools demoConfig demoServerNames).2.2.2
        demoDiscovery rfl rfl).2 "weather" [toolWeatherGet] (by decide)
      toolWeatherGet (by decide)⟩

theorem toLower_of_whitespace (c : Char) (h : c.isWhitespace = true) :
    Char.toLower c = c := by
  simp [Char.isWhitespace] at h
  rcases h with ((h | h) | h) | h <;> subst h <;> decide

theorem tokenizeAux_all_sep (l : List Char) (h : ∀ c ∈ l, isSepChar c = true) :
    tokenizeAux isSepChar l [] = [] := by
  induction l with
  | nil => rfl
  | cons c cs ih =>
      have hc := h c (List.mem_cons_self _ _)
      simp only [tokenizeAux, hc, if_true, List.isEmpty_nil]
      exact ih (fun c2 hc2 => h c2 (List.mem_cons_of_mem _ hc2))

theorem tokenize_of_stripIsEmpty (q : String) (h : stripIsEmpty q = true) :
    tokenize q = [] := by
  have h2 : tokenizeAux isSepChar (q.data.map Char.toLower) [] = [] := by
    refine tokenizeAux_all_sep _ ?_
    intro c hc
    rcases List.mem_map.mp hc with ⟨c0, hc0, rfl⟩
    have hw : c0.isWhitespace = true := by
      unfold stripIsEmpty at h
      exact List.all_eq_true.mp h c0 hc0
    rw [toLower_of_whitespace c0 hw]
    simp [isSepChar, hw]
  unfold tokenize
  rw [h2]
  rfl

theorem stripIsEmpty_false_of_token (q : String) (tok : String)
    (h : tok ∈ tokenize q) : stripIsEmpty q = false := by
  by_contra hc
  have ht : stripIsEmpty q = true := by
    cases he : stripIsEmpty q with
    | true => rfl
    | false => exact absurd he hc
  rw [tokenize_of_stripIsEmpty q ht] at h
  simp at h

theorem collectResults_single (m : List (String × String)) (maxResults : Nat)
    (x : ℚ) (t : Tool) :
    collectResults m none maxResults [(x, t)] []
      = [((alistGet m t.name).getD "unknown", t)] := by
  simp only [collectResults, List.nil_append, List.length_cons, List.length_nil]
  by_cases h : maxResults ≤ 0 + 1
  · simp [h]
  · simp [h, collectResults]

/-- C9: over a search index containing exactly one tool, any query that
shares at least one token with the tool's tokenised document (name plus
description) makes `search` return that tool, for every BM25 score
function: a positive score returns it directly, and otherwise the raw
token-overlap fallback does — given `max_results ≥ 1` and no server
filter. -/
theorem searchIndex_single_tool_returns_tool (t : Tool)
    (m : List (String × String)) (scores : Nat → ℚ) (query : String)
    (maxResults : Nat)
    (htok : ∃ tok, tok ∈ tokenize query ∧ tok ∈ corpusDoc t)
    (_hmax : 1 ≤ maxResults) :
    ToolSearchIndex.search ⟨[t], m⟩ scores query maxResults none
      = [((alistGet m t.name).getD "unknown", t)] := by
  obtain ⟨tok, hq, hd⟩ := htok
  have hstrip : stripIsEmpty query = false := stripIsEmpty_false_of_token query tok hq
  unfold ToolSearchIndex.search
  rw [if_neg (by simp [hstrip])]
  by_cases hpos : 0 < scores 0
  · have hsc : (([t] : List Tool).enum.filterMap
        (fun p => if 0 < scores p.1 then some (scores p.1, p.2) else none))
        = [(scores 0, t)] := by
      simp [List.enum, hpos]
    rw [hsc]
    simp only [List.isEmpty_cons, Bool.false_eq_true, if_false, if_neg]
    rw [List.mergeSort_singleton]
    exact collectResults_single m maxResults (scores 0) t
  · have hsc : (([t] : List Tool).enum.filterMap
        (fun p => if 0 < scores p.1 then some (scores p.1, p.2) else none))
        = [] := by
      simp [List.enum, hpos]
    rw [hsc]
    have hov : 0 < overlapScore (tokenize query) (corpusDoc t) := by
      unfold overlapScore
      refine List.length_pos.mpr (@List.ne_nil_of_mem _ tok _ ?_)
      refine List.mem_filter.mpr ⟨List.mem_dedup.mpr hq, by simp [hd]⟩
    have hfb : fallbackScored ⟨[t], m⟩ (tokenize query)
        = [((overlapScore (tokenize query) (corpusDoc t) : ℚ), t)] := by
      simp [fallbackScored, hov]
    simp only [List.isEmpty_nil, if_true, hfb]
    rw [List.mergeSort_singleton]
    exact collectResults_single m maxResults _ t

/-- Instantiation of `searchIndex_single_tool_returns_tool`: an index over
just the weather tool returns it for the query "weather" even when every
BM25 score is zero (the fallback path). -/
theorem searchIndex_single_tool_returns_tool_witness :
    ToolSearchIndex.search ⟨[toolWeatherGet], [("weather_get", "weather")]⟩
        (fun _ => 0) "weather" 5 none
      = [("weather", toolWeatherGet)] :=
  searchIndex_single_tool_returns_tool toolWeatherGet [("weather_get", "weather")]
    (fun _ => 0) "weather" 5
    ⟨"weather", by decide, by decide⟩ (by decide)

/-- C1 (code evaluation): the `SearchToolsTool` class defines no
`system_prompt` member — its members are exactly `_TOOL_NAME`, `__init__`,
`name`, `definition` and `execute` — and for every manifest the description
built by `definition` contains the manifest text inside the tool
description itself, between the fixed leading and trailing text. The chat
loop nevertheless reads `search_tools_tool.system_prompt`
(mcp_tool_chat.py lines 240 and 567). -/
theorem searchTools_manifest_in_description_no_system_prompt :
    searchToolsClassMembers.contains "system_prompt" = false
    ∧ (∀ manifest : String,
        searchToolsDescription manifest
          = searchToolsDescPre ++ manifest ++ searchToolsDescSuf)
    ∧ (∀ manifest : String,
        List.IsInfix manifest.data (searchToolsDescription manifest).data) := by
  refine ⟨rfl, fun _ => rfl, ?_⟩
  intro manifest
  exact ⟨searchToolsDescPre.data, searchToolsDescSuf.data, rfl⟩

theorem unknownServer_iff (st : SearchToolsState) (sn : Option String) :
    unknownServer st sn = true ↔ ∃ s, sn = some s ∧ s ∉ st.server_names := by
  cases sn with
  | none => simp [unknownServer]
  | some s => simp [unknownServer]

theorem executeResolved_not_error (st : SearchToolsState) (scores : Nat → ℚ)
    (q : Option String) (sn : Option String) (tn : Option (List String)) :
    isErrorContent (executeResolved st scores q sn tn).1.content = false := by
  unfold executeResolved
  by_cases h3 : (resolveResults st scores q sn tn).1.isEmpty = true
  · rw [if_pos h3]
    rfl
  · rw [if_neg h3]
    rfl

theorem executeCore_error_iff (st : SearchToolsState) (scores : Nat → ℚ)
    (q : Option String) (sn : Option String) (tn : Option (List String)) :
    isErrorContent (executeCore st scores q sn tn).1.content = true
      ↔ ((q = none ∧ sn = none ∧ tn = none)
          ∨ ∃ s, sn = some s ∧ s ∉ st.server_names) := by
  unfold executeCore
  by_cases h1 : q = none ∧ sn = none ∧ tn = none
  · rw [if_pos h1]
    simp [isErrorContent, h1]
  · rw [if_neg h1]
    by_cases h2 : unknownServer st sn = true
    · rw [if_pos h2]
      simp only [isErrorContent, true_iff]
      exact Or.inr ((unknownServer_iff st sn).mp h2)
    · rw [if_neg h2]
      rw [executeResolved_not_error st scores q sn tn]
      simp only [Bool.false_eq_true, false_iff]
      intro hR
      rcases hR with h | hs
      · exact h1 h
      · exact h2 ((unknownServer_iff st sn).mpr hs)

/-- C7 (amended): `execute` normalises a whitespace-only `query` and an
empty `tool_names` list to not provided — `server_name` is not normalised —
and it returns an error result exactly when, after that normalisation, none
of the three parameters is provided, or `server_name` is provided (any
string, the empty one included) but is not a known deferred server. -/
theorem searchTools_execute_error_iff (st : SearchToolsState) (scores : Nat → ℚ)
    (args : ExecArgs) :
    (∀ q, stripIsEmpty q = true →
      SearchToolsTool.execute st scores ⟨some q, args.server_name, args.tool_names⟩
        = SearchToolsTool.execute st scores ⟨none, args.server_name, args.tool_names⟩)
    ∧ SearchToolsTool.execute st scores ⟨args.query, args.server_name, some []⟩
        = SearchToolsTool.execute st scores ⟨args.query, args.server_name, none⟩
    ∧ (isErrorContent (SearchToolsTool.execute st scores args).1.content = true
        ↔ ((normQuery args.query = none ∧ args.server_name = none
              ∧ normToolNames args.tool_names = none)
           ∨ ∃ s, args.server_name = some s ∧ s ∉ st.server_names)) := by
  refine ⟨?_, ?_, ?_⟩
  · intro q hq
    unfold SearchToolsTool.execute
    rw [show normQuery (some q) = none from by simp [normQuery, hq]]
    rfl
  · unfold SearchToolsTool.execute
    rfl
  · exact executeCore_error_iff st scores (normQuery args.query) args.server_name
      (normToolNames args.tool_names)

/-- Instantiation of `searchTools_execute_error_iff`: a whitespace query
and an empty tool_names list behave exactly like the absent parameter on
the demo state. -/
theorem searchTools_execute_error_iff_witness :
    SearchToolsTool.execute demoSearchState (fun _ => 0) ⟨some " ", some "weather", none⟩
      = SearchToolsTool.execute demoSearchState (fun _ => 0) ⟨none, some "weather", none⟩
    ∧ SearchToolsTool.execute demoSearchState (fun _ => 0) ⟨none, some "weather", some []⟩
      = SearchToolsTool.execute demoSearchState (fun _ => 0) ⟨none, some "weather", none⟩ :=
  ⟨(searchTools_execute_error_iff demoSearchState (fun _ => 0)
      ⟨none, some "weather", none⟩).1 " " (by decide),
    (searchTools_execute_error_iff demoSearchState (fun _ => 0)
      ⟨none, some "weather", none⟩).2.1⟩

/-- C7 counterexample: with `query` provided and `server_name` the empty
string, the claim as stated (normalising the empty `server_name` to not
provided, leaving a valid query-only search) expects no error, but
`execute` returns the unknown-server error: `server_name` is not
normalised in the code, and its own test pins this
(test_empty_server_name_treated_as_invalid). -/
theorem searchTools_empty_server_name_is_error :
    claimSaysError demoSearchState ⟨some "weather", some "", none⟩ = false
    ∧ (SearchToolsTool.execute demoSearchState (fun _ => 0)
        ⟨some "weather", some "", none⟩).1.content
      = .errorUnknownServer "" ["weather"]
    ∧ isErrorContent (SearchToolsTool.execute demoSearchState (fun _ => 0)
        ⟨some "weather", some "", none⟩).1.content = true := by
  refine ⟨by decide, by decide, by decide⟩

/-- C4: a tool call whose name is in the current deferred set is answered
by the in-band tool-result error directing the LLM to the search-tools
tool, and the MCP transport is not contacted for it (the dispatch result
before reaching `call_tool`, with no definition change); the message text
contains "search-tools" literally. -/
theorem deferred_tool_rejected_in_band (tc : AssistantToolCall)
    (deferred registry : List String) (synthContent : String)
    (synthNewlyLoaded : List Tool) (argsParseOk : Bool) (mcpContent : String)
    (h : tc.name ∈ deferred) :
    executeToolCall tc deferred registry synthContent synthNewlyLoaded
        argsParseOk mcpContent
      = ⟨⟨tc.name, tc.id, deferredErrorMsg tc.name⟩, false, false⟩
    ∧ deferredErrorMsg tc.name
        = deferredErrorMsgPre ++ tc.name ++ deferredErrorMsgSuf
    ∧ List.IsInfix "search-tools".data deferredErrorMsgSuf.data := by
  refine ⟨?_, rfl, by decide⟩
  unfold executeToolCall
  rw [if_pos h]

/-- Instantiation of `deferred_tool_rejected_in_band`: the deferred
weather_get call is rejected without transport contact. -/
theorem deferred_tool_rejected_in_band_witness :
    executeToolCall ⟨"call-1", "weather_get", "\x7b\x7d"⟩ ["weather_get"] []
        "" [] true ""
      = ⟨⟨"weather_get", "call-1", deferredErrorMsg "weather_get"⟩, false, false⟩ :=
  (deferred_tool_rejected_in_band ⟨"call-1", "weather_get", "\x7b\x7d"⟩
    ["weather_get"] [] "" [] true "" (by decide)).1

theorem foldl_recordToolCall_sums (registry serverNames : List String)
    (calls : List AssistantToolCall) :
    ∀ stats : ChatStats,
      sumValues ((calls.foldl
          (fun st tc => recordToolCall st tc.name registry serverNames)
          stats).tool_calls.by_tool)
        = sumValues stats.tool_calls.by_tool + calls.length
      ∧ sumValues ((calls.foldl
          (fun st tc => recordToolCall st tc.name registry serverNames)
          stats).tool_calls.by_server)
        = sumValues stats.tool_calls.by_server + calls.length := by
  induction calls with
  | nil => intro stats; simp
  | cons c cs ih =>
      intro stats
      simp only [List.foldl_cons, List.length_cons]
      have h := ih (recordToolCall stats c.name registry serverNames)
      refine ⟨?_, ?_⟩
      · rw [h.1]
        simp [recordToolCall, sumValues_alistIncr]
        omega
      · rw [h.2]
        simp [recordToolCall, sumValues_alistIncr]
        omega

theorem chatLoop_ok_sums (llm : Nat → List AssistantToolCall)
    (registry serverNames : List String) (maxIter : Nat) :
    ∀ (fuel i : Nat) (stats stats2 : ChatStats),
      chatLoop llm registry serverNames maxIter i fuel stats = .ok stats2 →
      sumValues stats.tool_calls.by_tool = sumValues stats.tool_calls.by_server →
      sumValues stats2.tool_calls.by_tool = sumValues stats2.tool_calls.by_server := by
  intro fuel
  induction fuel with
  | zero =>
      intro i stats stats2 h
      simp [chatLoop] at h
  | succ n ih =>
      intro i stats stats2 h hinv
      cases hcalls : llm i with
      | nil =>
          simp [chatLoop, hcalls] at h
          rw [← h]
          exact hinv
      | cons a as =>
          simp only [chatLoop, hcalls, List.isEmpty_cons, Bool.false_eq_true,
            if_false] at h
          refine ih (i + 1) _ stats2 h ?_
          have hsums := foldl_recordToolCall_sums registry serverNames (a :: as)
            { stats with llm_calls := stats.llm_calls + 1 }
          rw [hsums.1, hsums.2]
          simp only []
          omega

/-- C2: for every chat call that completes, the published stats satisfy
`tool_calls.total = Σ by_tool = Σ by_server`: each executed tool call
increments exactly one by_tool counter and exactly one by_server counter,
and `total` is the sum of the by_tool counters. -/
theorem chat_stats_tool_call_totals (llm : Nat → List AssistantToolCall)
    (registry serverNames : List String) (maxIter : Nat)
    (lastStats : Option ChatStats) (stats : ChatStats) (slot : Option ChatStats)
    (h : chatCall llm registry serverNames maxIter lastStats = (.ok stats, slot)) :
    stats.tool_calls.total = sumValues stats.tool_calls.by_tool
    ∧ sumValues stats.tool_calls.by_tool = sumValues stats.tool_calls.by_server := by
  refine ⟨rfl, ?_⟩
  unfold chatCall at h
  cases hl : chatLoop llm registry serverNames maxIter 0 maxIter ChatStats.empty with
  | ok s =>
      rw [hl] at h
      have hs : s = stats := by
        have := congrArg Prod.fst h
        simpa using this
      subst hs
      exact chatLoop_ok_sums llm registry serverNames maxIter maxIter 0
        ChatStats.empty s hl rfl
  | error e =>
      rw [hl] at h
      simp at h

/-- Instantiation of `chat_stats_tool_call_totals` on the demo LLM script:
one math_add call gives by_tool = {math_add: 1}, by_server = {math: 1} and
total 1, with the sums agreeing. -/
theorem chat_stats_tool_call_totals_witness :
    demoChatStats.tool_calls.total = sumValues demoChatStats.tool_calls.by_tool
    ∧ sumValues demoChatStats.tool_calls.by_tool
      = sumValues demoChatStats.tool_calls.by_server :=
  chat_stats_tool_call_totals demoLlm [] demoServerNames 5 none demoChatStats
    (some demoChatStats) rfl

theorem chatLoop_exhausts (llm : Nat → List AssistantToolCall)
    (registry serverNames : List String) (maxIter : Nat) :
    ∀ (fuel i : Nat) (stats : ChatStats),
      (∀ j, i ≤ j → j < i + fuel → llm j ≠ []) →
      chatLoop llm registry serverNames maxIter i fuel stats
        = .error (loopLimitMsg maxIter) := by
  intro fuel
  induction fuel with
  | zero =>
      intro i stats _
      rfl
  | succ n ih =>
      intro i stats h
      have hne : llm i ≠ [] := h i (le_refl i) (by omega)
      cases hcalls : llm i with
      | nil => exact absurd hcalls hne
      | cons a as =>
          simp only [chatLoop, hcalls, List.isEmpty_cons, Bool.false_eq_true,
            if_false]
          exact ih (i + 1)
            ((a :: as).foldl
              (fun st tc => recordToolCall st tc.name registry serverNames)
              { stats with llm_calls := stats.llm_calls + 1 })
            (fun j h1 h2 => h j (by omega) (by omega))

/-- C5: when every one of the `maxIter` LLM responses carries tool calls,
`chat` raises the loop-limit error and the `_last_stats` slot read by
`get_stats` keeps its previous value — stats are published only after the
loop breaks. -/
theorem chat_loop_limit_preserves_last_stats (llm : Nat → List AssistantToolCall)
    (registry serverNames : List String) (maxIter : Nat)
    (lastStats : Option ChatStats)
    (h : ∀ i, i < maxIter → llm i ≠ []) :
    chatCall llm registry serverNames maxIter lastStats
      = (.error (loopLimitMsg maxIter), lastStats) := by
  unfold chatCall
  rw [chatLoop_exhausts llm registry serverNames maxIter maxIter 0 ChatStats.empty
    (fun j _ h2 => h j (by omega))]

/-- Instantiation of `chat_loop_limit_preserves_last_stats` at the default
iteration limit (50 when MCP_MAX_CHAT_ITERATIONS is unset): an LLM that
emits a tool call on every turn makes the call fail with the loop-limit
error, leaving the last-stats slot untouched. -/
theorem chat_loop_limit_preserves_last_stats_witness :
    defaultMaxIterations none = some 50
    ∧ chatCall (fun _ => [⟨"call-1", "loop_tool", "\x7b\x7d"⟩]) [] ["math"] 50
        (some demoChatStats)
      = (.error (loopLimitMsg 50), some demoChatStats) :=
  ⟨rfl,
    chat_loop_limit_preserves_last_stats
      (fun _ => [⟨"call-1", "loop_tool", "\x7b\x7d"⟩]) [] ["math"] 50
      (some demoChatStats) (fun i _ => by simp)⟩

end CasualMcp
